import Mathlib

/-!
Verification of the isupipe backend (ISUCON13 contest entry, Go).

This file gives a shallow embedding of the parts of the Go webapp that the
specification talks about:

- the reservation admission path of reserveLivestreamHandler
  (webapp/go/livestream_handler.go),
- the ranking / statistics computations of getUserStatisticsHandler and
  getLivestreamStatisticsHandler,
- the read-through user / icon caches (getUserWithCache, getUserByName),
- getIconHandler,
- the favorite-emoji query,
- the bulk counter recomputation of initializeHandler.

Database tables become Lean lists of records, Go int64 becomes Int (no
arithmetic in the modelled code can overflow 64 bits on the values the
invariants allow, so the wrap-around of int64 is never exercised), []byte
becomes List Nat, and each handler becomes a pure function from a database
plus cache state to a result and a new state.  SQL statements are embedded
by their documented semantics on the list representation (filter / find? /
countP / sum), keeping the exact comparison operators of the queries.
A transaction that returns early rolls back, so an aborted handler leaves
the database component of the state unchanged.
-/

/-- Row of the users table; fields follow UserModel in the Go source
(id, name, display_name, description, password, dark_mode, plus the
denormalized counters reactions, tips, live_comments and icon_hash). -/
structure UserModel where
  id : Int
  name : String
  displayName : String
  description : String
  hashedPassword : String
  darkMode : Bool
  reactions : Int
  tips : Int
  liveComments : Int
  iconHash : List Nat
deriving DecidableEq, Repr

/-- Row of the livestreams table; follows LivestreamModel in the Go source
together with the denormalized counter columns (reactions, tips, max_tip)
that the statistics and initialize handlers read and write. -/
structure LivestreamModel where
  id : Int
  userId : Int
  title : String
  description : String
  playlistUrl : String
  thumbnailUrl : String
  startAt : Int
  endAt : Int
  reactions : Int
  tips : Int
  maxTip : Int
deriving DecidableEq, Repr

/-- Row of the reservation_slots table (ReservationSlotModel in Go):
slot is the remaining capacity of the interval [startAt, endAt). -/
structure ReservationSlotModel where
  id : Int
  slot : Int
  startAt : Int
  endAt : Int
deriving DecidableEq, Repr

/-- Row of the livestream_tags table (LivestreamTagModel in Go).  The
auto-increment id column is never read by the modelled code and is
inserted as 0. -/
structure LivestreamTagModel where
  id : Int
  livestreamId : Int
  tagId : Int
deriving DecidableEq, Repr

/-- Row of the icons table. -/
structure IconModel where
  id : Int
  userId : Int
  image : List Nat
deriving DecidableEq, Repr

/-- Row of the reactions table (fields used by the modelled queries). -/
structure ReactionModel where
  id : Int
  userId : Int
  livestreamId : Int
  emojiName : String
deriving DecidableEq, Repr

/-- Row of the livecomments table (fields used by the modelled queries). -/
structure LivecommentModel where
  id : Int
  userId : Int
  livestreamId : Int
  comment : String
  tip : Int
deriving DecidableEq, Repr

/-- Row of the favorite_emojis table. -/
structure FavoriteEmojiModel where
  userId : Int
  emojiName : String
deriving DecidableEq, Repr

/-- The relational store.  nextLivestreamId models the auto-increment
counter behind LastInsertId for the livestreams table. -/
structure Database where
  users : List UserModel
  livestreams : List LivestreamModel
  reservationSlots : List ReservationSlotModel
  livestreamTags : List LivestreamTagModel
  icons : List IconModel
  reactions : List ReactionModel
  livecomments : List LivecommentModel
  favoriteEmojis : List FavoriteEmojiModel
  nextLivestreamId : Int
deriving DecidableEq, Repr

/-- Unix time of time.Date(2023, 11, 25, 1, 0, 0, 0, time.UTC), the start
of the booking window in reserveLivestreamHandler. -/
def termStartAt : Int := 1700874000

/-- Unix time of time.Date(2024, 11, 25, 1, 0, 0, 0, time.UTC), the end
of the booking window in reserveLivestreamHandler. -/
def termEndAt : Int := 1732496400

/-- Body of a reservation request (ReserveLivestreamRequest in Go). -/
structure ReserveRequest where
  tags : List Int
  title : String
  description : String
  playlistUrl : String
  thumbnailUrl : String
  startAt : Int
  endAt : Int
deriving DecidableEq, Repr

/-- Data-touching SQL statements executed by the reservation handler, in
order.  BeginTxx / Rollback / Commit are transaction control, not reads
or writes of table data, and are not recorded. -/
inductive StoreOp where
  | selectSlotsForUpdate (startAt endAt : Int)
  | selectSlotCount (startAt endAt : Int)
  | updateSlots (startAt endAt : Int)
  | insertLivestream
  | insertLivestreamTag (tagId : Int)
  | selectUserById (id : Int)
deriving DecidableEq, Repr

/-- Outcome of reserveLivestreamHandler, mapped from its HTTP responses:
badTimeRange is the 400 "bad reservation time range", capacityExhausted
the 400 for a full slot, storageError a 500, userNotFound the 404 from the
owner lookup (which aborts the transaction before commit), created the
201 with the inserted row. -/
inductive ReserveResult where
  | badTimeRange
  | capacityExhausted
  | storageError
  | userNotFound
  | created (livestream : LivestreamModel)
deriving DecidableEq, Repr

/-- Result, final database (after commit or rollback) and executed
data-touching statements of one reservation request. -/
structure ReserveOutcome where
  result : ReserveResult
  db : Database
  ops : List StoreOp
deriving DecidableEq, Repr

/-- WHERE start_at >= :reqStart AND end_at <= :reqEnd on reservation_slots:
the slot interval is fully contained in the requested range. -/
def slotContained (req : ReserveRequest) (r : ReservationSlotModel) : Bool :=
  decide (req.startAt ≤ r.startAt) && decide (r.endAt ≤ req.endAt)

/-- SELECT slot FROM reservation_slots WHERE start_at = ? AND end_at = ?
(first matching row, as sqlx Get returns). -/
def findSlot (rows : List ReservationSlotModel) (a b : Int) : Option ReservationSlotModel :=
  rows.find? (fun r => decide (r.startAt = a) && decide (r.endAt = b))

/-- Result of the per-slot capacity re-read loop of the handler. -/
inductive SlotsCheckResult where
  | ok
  | exhausted
  | dbError
deriving DecidableEq, Repr

/-- The capacity re-read loop: for each locked slot, re-read its row by
(start_at, end_at) and fail with exhausted as soon as a count below 1 is
seen.  The second component lists the SELECTs actually executed. -/
def slotsCheck (rows : List ReservationSlotModel) :
    List ReservationSlotModel → SlotsCheckResult × List StoreOp
  | [] => (.ok, [])
  | r :: rest =>
    match findSlot rows r.startAt r.endAt with
    | none => (.dbError, [.selectSlotCount r.startAt r.endAt])
    | some row =>
      if row.slot < 1 then (.exhausted, [.selectSlotCount r.startAt r.endAt])
      else ((slotsCheck rows rest).1, .selectSlotCount r.startAt r.endAt :: (slotsCheck rows rest).2)

/-- UPDATE reservation_slots SET slot = slot - 1
WHERE start_at >= :reqStart AND end_at <= :reqEnd. -/
def decrementContained (req : ReserveRequest) (rows : List ReservationSlotModel) :
    List ReservationSlotModel :=
  rows.map (fun r => if slotContained req r then { r with slot := r.slot - 1 } else r)

/-- The livestreams row inserted by the handler (counters start at their
column defaults). -/
def newLivestream (userID : Int) (req : ReserveRequest) (db : Database) : LivestreamModel :=
  { id := db.nextLivestreamId, userId := userID, title := req.title,
    description := req.description, playlistUrl := req.playlistUrl,
    thumbnailUrl := req.thumbnailUrl, startAt := req.startAt, endAt := req.endAt,
    reactions := 0, tips := 0, maxTip := 0 }

/-- The livestream_tags rows inserted by the handler, one per requested tag. -/
def newTagRows (req : ReserveRequest) (db : Database) : List LivestreamTagModel :=
  req.tags.map (fun t => { id := 0, livestreamId := db.nextLivestreamId, tagId := t })

/-- Database after the transaction commits: every fully contained slot
decremented by one, the livestream row appended, its tag rows appended. -/
def commitReservation (userID : Int) (req : ReserveRequest) (db : Database) : Database :=
  { db with
    reservationSlots := decrementContained req db.reservationSlots,
    livestreams := db.livestreams ++ [newLivestream userID req db],
    livestreamTags := db.livestreamTags ++ newTagRows req db,
    nextLivestreamId := db.nextLivestreamId + 1 }

/-- SELECTs performed before any write: the FOR UPDATE lock query plus the
per-slot re-reads. -/
def reserveReadOps (req : ReserveRequest) (db : Database) : List StoreOp :=
  StoreOp.selectSlotsForUpdate req.startAt req.endAt ::
    (slotsCheck db.reservationSlots (db.reservationSlots.filter (slotContained req))).2

/-- Statements executed on the path that passes the capacity check:
reads, the bulk decrement, the livestream insert and one insert per tag. -/
def reserveWriteOps (req : ReserveRequest) (db : Database) : List StoreOp :=
  reserveReadOps req db ++
    [StoreOp.updateSlots req.startAt req.endAt, StoreOp.insertLivestream] ++
    req.tags.map StoreOp.insertLivestreamTag

/-- Everything reserveLivestreamHandler does after the booking-window
check, inside the open transaction: lock the fully contained slots,
re-read each one's capacity, then decrement, insert the livestream and
its tags, resolve the owner (through the user cache: cachedUser is the
cache's answer, a miss falls back to a users SELECT), and commit; any
early return rolls the transaction back. -/
def reserveLocked (userID : Int) (req : ReserveRequest) (cachedUser : Option UserModel)
    (db : Database) : ReserveOutcome :=
  match (slotsCheck db.reservationSlots (db.reservationSlots.filter (slotContained req))).1 with
  | .dbError => { result := .storageError, db := db, ops := reserveReadOps req db }
  | .exhausted => { result := .capacityExhausted, db := db, ops := reserveReadOps req db }
  | .ok =>
    match cachedUser with
    | some _ =>
      { result := .created (newLivestream userID req db),
        db := commitReservation userID req db, ops := reserveWriteOps req db }
    | none =>
      match db.users.find? (fun u => decide (u.id = userID)) with
      | some _ =>
        { result := .created (newLivestream userID req db),
          db := commitReservation userID req db,
          ops := reserveWriteOps req db ++ [.selectUserById userID] }
      | none =>
        { result := .userNotFound, db := db,
          ops := reserveWriteOps req db ++ [.selectUserById userID] }

/-- reserveLivestreamHandler: reject a range that starts at or after the
window end or ends at or before the window start, otherwise run the
locked admission sequence. -/
def reserveLivestream (userID : Int) (req : ReserveRequest) (cachedUser : Option UserModel)
    (db : Database) : ReserveOutcome :=
  if termEndAt ≤ req.startAt ∨ req.endAt ≤ termStartAt then
    { result := .badTimeRange, db := db, ops := [] }
  else
    reserveLocked userID req cachedUser db

/-- The reservation_slots table keys its rows by interval: no two rows
share the same (start_at, end_at) pair (true of the deployed schema,
which seeds one row per hour of the booking window). -/
def SlotKeysUnique (rows : List ReservationSlotModel) : Prop :=
  rows.Pairwise (fun a b => ¬(a.startAt = b.startAt ∧ a.endAt = b.endAt))

theorem findSlot_eq_self {rows : List ReservationSlotModel}
    (hu : SlotKeysUnique rows) {r : ReservationSlotModel} (hr : r ∈ rows) :
    findSlot rows r.startAt r.endAt = some r := by
  induction rows with
  | nil => cases hr
  | cons x xs ih =>
    rcases List.mem_cons.mp hr with h | h
    · subst h
      unfold findSlot
      rw [List.find?_cons_of_pos]
      simp
    · have hx : ¬(x.startAt = r.startAt ∧ x.endAt = r.endAt) :=
        (List.pairwise_cons.mp hu).1 r h
      unfold findSlot
      rw [List.find?_cons_of_neg]
      · exact ih (List.pairwise_cons.mp hu).2 h
      · simpa using hx

theorem slotsCheck_ok_iff {rows l : List ReservationSlotModel}
    (hl : ∀ r ∈ l, findSlot rows r.startAt r.endAt = some r) :
    (slotsCheck rows l).1 = .ok ↔ ∀ r ∈ l, 1 ≤ r.slot := by
  induction l with
  | nil => simp [slotsCheck]
  | cons r rest ih =>
    have hr := hl r (List.mem_cons_self r rest)
    have hrest : ∀ s ∈ rest, findSlot rows s.startAt s.endAt = some s :=
      fun s hs => hl s (List.mem_cons_of_mem _ hs)
    simp only [slotsCheck, hr]
    by_cases hs : r.slot < 1
    · rw [if_pos hs]
      simp only [List.forall_mem_cons]
      constructor
      · intro h; cases h
      · intro h; omega
    · rw [if_neg hs]
      simp only [List.forall_mem_cons]
      rw [ih hrest]
      constructor
      · intro h; exact ⟨by omega, h⟩
      · intro h; exact h.2

theorem slotsCheck_exhausted_iff {rows l : List ReservationSlotModel}
    (hl : ∀ r ∈ l, findSlot rows r.startAt r.endAt = some r) :
    (slotsCheck rows l).1 = .exhausted ↔ ∃ r ∈ l, r.slot < 1 := by
  induction l with
  | nil => simp [slotsCheck]
  | cons r rest ih =>
    have hr := hl r (List.mem_cons_self r rest)
    have hrest : ∀ s ∈ rest, findSlot rows s.startAt s.endAt = some s :=
      fun s hs => hl s (List.mem_cons_of_mem _ hs)
    simp only [slotsCheck, hr]
    by_cases hs : r.slot < 1
    · rw [if_pos hs]
      simp only [eq_self_iff_true, true_iff]
      exact ⟨r, List.mem_cons_self r rest, hs⟩
    · rw [if_neg hs]
      rw [ih hrest]
      constructor
      · rintro ⟨s, hsm, hslt⟩
        exact ⟨s, List.mem_cons_of_mem _ hsm, hslt⟩
      · rintro ⟨s, hsm, hslt⟩
        rcases List.mem_cons.mp hsm with h | h
        · subst h; omega
        · exact ⟨s, h, hslt⟩

/-- Case split for one reservation request: either the transaction rolled
back (database unchanged, result not a creation), or the window check and
the capacity check both passed and the reservation was committed. -/
theorem reserveLivestream_cases (userID : Int) (req : ReserveRequest)
    (cachedUser : Option UserModel) (db : Database) :
    ((reserveLivestream userID req cachedUser db).db = db ∧
      ∀ ls, (reserveLivestream userID req cachedUser db).result ≠ .created ls) ∨
    (¬(termEndAt ≤ req.startAt ∨ req.endAt ≤ termStartAt) ∧
      (slotsCheck db.reservationSlots (db.reservationSlots.filter (slotContained req))).1 = .ok ∧
      (reserveLivestream userID req cachedUser db).result = .created (newLivestream userID req db) ∧
      (reserveLivestream userID req cachedUser db).db = commitReservation userID req db) := by
  unfold reserveLivestream
  by_cases hw : termEndAt ≤ req.startAt ∨ req.endAt ≤ termStartAt
  · rw [if_pos hw]; left; exact ⟨rfl, by simp⟩
  · rw [if_neg hw]
    unfold reserveLocked
    cases hc : (slotsCheck db.reservationSlots (db.reservationSlots.filter (slotContained req))).1 with
    | dbError => left; exact ⟨rfl, by simp⟩
    | exhausted => left; exact ⟨rfl, by simp⟩
    | ok =>
      cases cachedUser with
      | some u => right; exact ⟨hw, rfl, rfl, rfl⟩
      | none =>
        cases hf : db.users.find? (fun u => decide (u.id = userID)) with
        | some u => right; exact ⟨hw, rfl, rfl, rfl⟩
        | none => left; exact ⟨rfl, by simp⟩

/-- C3: a reservation whose end is at or before the window start, or whose
start is at or after the window end, is rejected with the 400 validation
error, the database is untouched, and no data-touching SQL statement (read
or write) is executed; only the transaction begin/rollback pair runs. -/
theorem reserveLivestream_out_of_window (userID : Int) (req : ReserveRequest)
    (cachedUser : Option UserModel) (db : Database)
    (h : req.endAt ≤ termStartAt ∨ termEndAt ≤ req.startAt) :
    reserveLivestream userID req cachedUser db =
      { result := .badTimeRange, db := db, ops := [] } := by
  unfold reserveLivestream
  rw [if_pos (h.elim Or.inr Or.inl)]

def reqOutOfWindow : ReserveRequest :=
  { tags := [], title := "t", description := "", playlistUrl := "", thumbnailUrl := "",
    startAt := 1700000000, endAt := 1700100000 }

def dbEmpty : Database :=
  { users := [], livestreams := [], reservationSlots := [], livestreamTags := [],
    icons := [], reactions := [], livecomments := [], favoriteEmojis := [],
    nextLivestreamId := 1 }

/-- Witness for C3 at a concrete request lying entirely before the window. -/
theorem reserveLivestream_out_of_window_witness :
    (reqOutOfWindow.endAt ≤ termStartAt ∨ termEndAt ≤ reqOutOfWindow.startAt) ∧
      reserveLivestream 1 reqOutOfWindow none dbEmpty =
        { result := .badTimeRange, db := dbEmpty, ops := [] } :=
  ⟨by decide, reserveLivestream_out_of_window 1 reqOutOfWindow none dbEmpty (by decide)⟩

/-- C1: once a request reaches the capacity check (it passed the window
check), if some slot fully contained in the requested range has remaining
capacity below 1 the handler answers capacityExhausted and rolls back (no
decrement, no insert); if every contained slot has capacity at least 1 and
the owner resolves, the handler commits: every contained slot decremented
by exactly one, the livestream row and its tag rows appended, all in the
one transaction. -/
theorem reserveLivestream_capacity_check (userID : Int) (req : ReserveRequest)
    (cachedUser : Option UserModel) (db : Database)
    (hw : ¬(termEndAt ≤ req.startAt ∨ req.endAt ≤ termStartAt))
    (hu : SlotKeysUnique db.reservationSlots) :
    ((∃ r ∈ db.reservationSlots, slotContained req r = true ∧ r.slot < 1) →
        (reserveLivestream userID req cachedUser db).result = .capacityExhausted ∧
        (reserveLivestream userID req cachedUser db).db = db) ∧
    ((∀ r ∈ db.reservationSlots, slotContained req r = true → 1 ≤ r.slot) →
      (cachedUser.isSome ∨ (db.users.find? (fun u => decide (u.id = userID))).isSome) →
        (reserveLivestream userID req cachedUser db).result =
            .created (newLivestream userID req db) ∧
        (reserveLivestream userID req cachedUser db).db.reservationSlots =
            decrementContained req db.reservationSlots ∧
        (reserveLivestream userID req cachedUser db).db.livestreams =
            db.livestreams ++ [newLivestream userID req db] ∧
        (reserveLivestream userID req cachedUser db).db.livestreamTags =
            db.livestreamTags ++ newTagRows req db) := by
  have hl : ∀ r ∈ db.reservationSlots.filter (slotContained req),
      findSlot db.reservationSlots r.startAt r.endAt = some r :=
    fun r hr => findSlot_eq_self hu (List.mem_filter.mp hr).1
  constructor
  · rintro ⟨r, hr, hc, hsl⟩
    have hex : (slotsCheck db.reservationSlots
        (db.reservationSlots.filter (slotContained req))).1 = .exhausted :=
      (slotsCheck_exhausted_iff hl).mpr ⟨r, List.mem_filter.mpr ⟨hr, hc⟩, hsl⟩
    unfold reserveLivestream
    rw [if_neg hw]
    unfold reserveLocked
    rw [hex]
    exact ⟨rfl, rfl⟩
  · intro hcap huser
    have hok : (slotsCheck db.reservationSlots
        (db.reservationSlots.filter (slotContained req))).1 = .ok :=
      (slotsCheck_ok_iff hl).mpr (fun r hr =>
        hcap r (List.mem_filter.mp hr).1 (List.mem_filter.mp hr).2)
    unfold reserveLivestream
    rw [if_neg hw]
    unfold reserveLocked
    rw [hok]
    cases cachedUser with
    | some u => exact ⟨rfl, rfl, rfl, rfl⟩
    | none =>
      cases hf : db.users.find? (fun u => decide (u.id = userID)) with
      | some u => exact ⟨rfl, rfl, rfl, rfl⟩
      | none =>
        rcases huser with h | h
        · cases h
        · rw [hf] at h; cases h

def userAlice : UserModel :=
  { id := 1, name := "alice", displayName := "Alice", description := "",
    hashedPassword := "", darkMode := false, reactions := 0, tips := 0,
    liveComments := 0, iconHash := [] }

def slotFull : ReservationSlotModel :=
  { id := 1, slot := 0, startAt := 1700874000, endAt := 1700877600 }

def slotFree : ReservationSlotModel :=
  { id := 1, slot := 1, startAt := 1700874000, endAt := 1700877600 }

def dbSlotFull : Database := { dbEmpty with users := [userAlice], reservationSlots := [slotFull] }

def dbSlotFree : Database := { dbEmpty with users := [userAlice], reservationSlots := [slotFree] }

def reqFirstHour : ReserveRequest :=
  { tags := [], title := "live", description := "", playlistUrl := "", thumbnailUrl := "",
    startAt := 1700874000, endAt := 1700877600 }

/-- Witness for C1: with the single covering slot at capacity 0 the
request is rejected as exhausted and the database is unchanged. -/
theorem reserveLivestream_capacity_check_witness :
    (reserveLivestream 1 reqFirstHour none dbSlotFull).result = .capacityExhausted ∧
      (reserveLivestream 1 reqFirstHour none dbSlotFull).db = dbSlotFull :=
  (reserveLivestream_capacity_check 1 reqFirstHour none dbSlotFull (by decide) (by
    constructor
    · intro b hb; cases hb
    · exact List.Pairwise.nil)).1
    ⟨slotFull, by decide, by decide, by decide⟩

/-- C4 (amended): every committed livestream row keeps the requested
timestamps and its range is not entirely outside the booking window
(startAt is before the window end and endAt after the window start); the
handler enforces nothing stronger, see the counterexample. -/
theorem reserveLivestream_created_in_window (userID : Int) (req : ReserveRequest)
    (cachedUser : Option UserModel) (db : Database) (ls : LivestreamModel)
    (h : (reserveLivestream userID req cachedUser db).result = .created ls) :
    ls.startAt < termEndAt ∧ termStartAt < ls.endAt ∧
      ls ∈ (reserveLivestream userID req cachedUser db).db.livestreams := by
  rcases reserveLivestream_cases userID req cachedUser db with ⟨_, hne⟩ | ⟨hw, _, hcr, hdb⟩
  · exact absurd h (hne ls)
  · have hls : newLivestream userID req db = ls := by
      have := hcr.symm.trans h
      simpa using this
    push_neg at hw
    refine ⟨?_, ?_, ?_⟩
    · rw [← hls]; exact hw.1
    · rw [← hls]; exact hw.2
    · rw [hdb, ← hls]
      simp [commitReservation]

/-- Witness for C4 at a concrete admitted reservation. -/
theorem reserveLivestream_created_in_window_witness :
    (reserveLivestream 1 reqFirstHour none dbSlotFree).result =
        .created (newLivestream 1 reqFirstHour dbSlotFree) ∧
      ((newLivestream 1 reqFirstHour dbSlotFree).startAt < termEndAt ∧
        termStartAt < (newLivestream 1 reqFirstHour dbSlotFree).endAt ∧
        newLivestream 1 reqFirstHour dbSlotFree ∈
          (reserveLivestream 1 reqFirstHour none dbSlotFree).db.livestreams) :=
  ⟨by decide,
    reserveLivestream_created_in_window 1 reqFirstHour none dbSlotFree
      (newLivestream 1 reqFirstHour dbSlotFree) (by decide)⟩

def reqInverted : ReserveRequest :=
  { tags := [], title := "x", description := "", playlistUrl := "", thumbnailUrl := "",
    startAt := 1732496399, endAt := 1700874001 }

/-- Counterexample to C4 as stated: the handler never compares startAt
with endAt, so a request with startAt far after endAt (each endpoint
individually escaping the two one-sided window tests) is admitted and the
committed livestream row violates start < end. -/
theorem reserveLivestream_admits_inverted_range :
    (reserveLivestream 1 reqInverted (some userAlice) dbSlotFree).result =
        .created (newLivestream 1 reqInverted dbSlotFree) ∧
      (newLivestream 1 reqInverted dbSlotFree).endAt <
        (newLivestream 1 reqInverted dbSlotFree).startAt ∧
      newLivestream 1 reqInverted dbSlotFree ∈
        (reserveLivestream 1 reqInverted (some userAlice) dbSlotFree).db.livestreams := by
  refine ⟨by decide, by decide, ?_⟩
  simp [reserveLivestream, reserveLocked, commitReservation, reqInverted, dbSlotFree,
    slotsCheck, termStartAt, termEndAt]

theorem decSlot_startAt (req : ReserveRequest) (x : ReservationSlotModel) :
    (if slotContained req x then { x with slot := x.slot - 1 } else x).startAt = x.startAt := by
  split <;> rfl

theorem decSlot_endAt (req : ReserveRequest) (x : ReservationSlotModel) :
    (if slotContained req x then { x with slot := x.slot - 1 } else x).endAt = x.endAt := by
  split <;> rfl

theorem findSlot_decrementContained (req : ReserveRequest)
    (rows : List ReservationSlotModel) (a b : Int) :
    findSlot (decrementContained req rows) a b =
      (findSlot rows a b).map
        (fun r => if slotContained req r then { r with slot := r.slot - 1 } else r) := by
  induction rows with
  | nil => rfl
  | cons x xs ih =>
    unfold decrementContained at ih ⊢
    simp only [List.map_cons]
    unfold findSlot at ih ⊢
    simp only [List.find?_cons, decSlot_startAt, decSlot_endAt]
    by_cases hx : (decide (x.startAt = a) && decide (x.endAt = b)) = true
    · rw [hx]
      rfl
    · rw [Bool.not_eq_true] at hx
      rw [hx]
      exact ih

theorem slotKeysUnique_decrementContained (req : ReserveRequest)
    {rows : List ReservationSlotModel} (hu : SlotKeysUnique rows) :
    SlotKeysUnique (decrementContained req rows) := by
  unfold SlotKeysUnique decrementContained
  rw [List.pairwise_map]
  exact hu.imp (fun {a b} h => by
    rw [decSlot_startAt, decSlot_endAt, decSlot_startAt, decSlot_endAt]; exact h)

theorem decrementContained_nonneg {req : ReserveRequest} {rows : List ReservationSlotModel}
    (hcap : ∀ r ∈ rows, slotContained req r = true → 1 ≤ r.slot)
    (hnn : ∀ r ∈ rows, 0 ≤ r.slot) :
    ∀ r ∈ decrementContained req rows, 0 ≤ r.slot := by
  intro r hr
  rcases List.mem_map.mp hr with ⟨x, hx, rfl⟩
  by_cases hc : slotContained req x
  · rw [if_pos hc]
    have := hcap x hx hc
    simp only []
    omega
  · rw [if_neg hc]
    exact hnn x hx

/-- Number of livestream rows whose scheduled range fully contains the
slot interval [a, b): exactly the committed reservations that consumed
(or, before any run, would have consumed) that slot. -/
def containCount (ls : List LivestreamModel) (a b : Int) : Nat :=
  ls.countP (fun l => decide (l.startAt ≤ a) && decide (b ≤ l.endAt))

/-- Remaining capacity currently stored for the slot keyed (a, b). -/
def curSlotVal (db : Database) (a b : Int) : Option Int :=
  (findSlot db.reservationSlots a b).map (fun r => r.slot)

theorem curSlotVal_nonneg {db : Database} {a b v : Int}
    (hnn : ∀ r ∈ db.reservationSlots, 0 ≤ r.slot)
    (hv : curSlotVal db a b = some v) : 0 ≤ v := by
  unfold curSlotVal at hv
  rcases h : findSlot db.reservationSlots a b with _ | r
  · rw [h] at hv; cases hv
  · rw [h] at hv
    injection hv with hv
    rw [← hv]
    exact hnn r (List.mem_of_find?_eq_some h)

/-- One reservation request conserves, per slot key, the sum of the
stored remaining capacity and the number of livestream rows containing
the slot, and preserves key uniqueness and nonnegativity. -/
theorem reserveLivestream_slot_step (userID : Int) (req : ReserveRequest)
    (cachedUser : Option UserModel) (db : Database)
    (hu : SlotKeysUnique db.reservationSlots)
    (hnn : ∀ r ∈ db.reservationSlots, 0 ≤ r.slot) :
    SlotKeysUnique (reserveLivestream userID req cachedUser db).db.reservationSlots ∧
    (∀ r ∈ (reserveLivestream userID req cachedUser db).db.reservationSlots, 0 ≤ r.slot) ∧
    (∀ a b v, curSlotVal db a b = some v →
      ∃ w, curSlotVal (reserveLivestream userID req cachedUser db).db a b = some w ∧
        (containCount (reserveLivestream userID req cachedUser db).db.livestreams a b : Int) + w =
          (containCount db.livestreams a b : Int) + v) := by
  rcases reserveLivestream_cases userID req cachedUser db with ⟨hdb, _⟩ | ⟨hw, hok, hcr, hdb⟩
  · rw [hdb]
    exact ⟨hu, hnn, fun a b v hv => ⟨v, hv, rfl⟩⟩
  · have hl : ∀ r ∈ db.reservationSlots.filter (slotContained req),
        findSlot db.reservationSlots r.startAt r.endAt = some r :=
      fun r hr => findSlot_eq_self hu (List.mem_filter.mp hr).1
    have hcap : ∀ r ∈ db.reservationSlots, slotContained req r = true → 1 ≤ r.slot :=
      fun r hr hc => (slotsCheck_ok_iff hl).mp hok r (List.mem_filter.mpr ⟨hr, hc⟩)
    rw [hdb]
    simp only [commitReservation]
    refine ⟨slotKeysUnique_decrementContained req hu,
      decrementContained_nonneg hcap hnn, ?_⟩
    intro a b v hv
    unfold curSlotVal at hv ⊢
    simp only []
    rw [findSlot_decrementContained]
    rcases hfind : findSlot db.reservationSlots a b with _ | r
    · rw [hfind] at hv; cases hv
    · rw [hfind] at hv
      injection hv with hv
      have hkey := List.find?_some hfind
      simp only [Bool.and_eq_true, decide_eq_true_eq] at hkey
      have hcnt : containCount (db.livestreams ++ [newLivestream userID req db]) a b =
          containCount db.livestreams a b +
            (if slotContained req r then 1 else 0) := by
        unfold containCount
        rw [List.countP_append]
        congr 1
        simp only [List.countP_cons, List.countP_nil, Nat.zero_add]
        unfold slotContained
        simp only [newLivestream]
        rw [hkey.1, hkey.2]
      by_cases hc : slotContained req r
      · rw [if_pos hc] at hcnt
        refine ⟨r.slot - 1, by simp [hc], ?_⟩
        rw [hcnt, ← hv]
        push_cast
        ring
      · rw [if_neg hc] at hcnt
        refine ⟨r.slot, by simp [hc], ?_⟩
        rw [hcnt, ← hv]
        push_cast
        ring

/-- One reservation request as issued by a client: acting user, body, and
the user cache's current answer for that user.  The FOR UPDATE row locks
serialize overlapping requests, so a concurrent history is modelled as a
sequence of whole requests. -/
structure ReserveCall where
  userID : Int
  req : ReserveRequest
  cachedUser : Option UserModel
deriving DecidableEq, Repr

/-- Database reached after serving a serialized sequence of reservation
requests. -/
def reserveSeq (db : Database) : List ReserveCall → Database
  | [] => db
  | c :: rest => reserveSeq (reserveLivestream c.userID c.req c.cachedUser db).db rest

theorem reserveSeq_invariant (calls : List ReserveCall) :
    ∀ db : Database, SlotKeysUnique db.reservationSlots →
      (∀ r ∈ db.reservationSlots, 0 ≤ r.slot) →
      SlotKeysUnique (reserveSeq db calls).reservationSlots ∧
      (∀ r ∈ (reserveSeq db calls).reservationSlots, 0 ≤ r.slot) ∧
      (∀ a b v, curSlotVal db a b = some v →
        ∃ w, curSlotVal (reserveSeq db calls) a b = some w ∧ 0 ≤ w ∧
          (containCount (reserveSeq db calls).livestreams a b : Int) + w =
            (containCount db.livestreams a b : Int) + v) := by
  induction calls with
  | nil =>
    intro db hu hnn
    exact ⟨hu, hnn, fun a b v hv => ⟨v, hv, curSlotVal_nonneg hnn hv, rfl⟩⟩
  | cons c rest ih =>
    intro db hu hnn
    simp only [reserveSeq]
    obtain ⟨hu1, hnn1, hstep⟩ := reserveLivestream_slot_step c.userID c.req c.cachedUser db hu hnn
    obtain ⟨hu2, hnn2, hseq⟩ := ih _ hu1 hnn1
    refine ⟨hu2, hnn2, ?_⟩
    intro a b v hv
    obtain ⟨w1, hw1, hsum1⟩ := hstep a b v hv
    obtain ⟨w2, hw2, h0, hsum2⟩ := hseq a b w1 hw1
    exact ⟨w2, hw2, h0, by omega⟩

/-- C2 (amended): starting from any state with nonnegative slot counters
(and interval-keyed slot rows), every serialized sequence of reservation
requests keeps every counter nonnegative and never lets the number of
livestream rows fully containing a slot grow beyond its stored capacity;
a single request is admitted only if every slot fully contained in its
range has capacity at least 1, and admission decrements exactly those
slots by one.  (As stated the claim speaks of every slot the request
merely overlaps; the handler only checks and decrements fully contained
slots, see the counterexample.) -/
theorem reserveSeq_no_overbooking (db : Database) (calls : List ReserveCall)
    (hu : SlotKeysUnique db.reservationSlots)
    (hnn : ∀ r ∈ db.reservationSlots, 0 ≤ r.slot) :
    (∀ r ∈ (reserveSeq db calls).reservationSlots, 0 ≤ r.slot) ∧
    (∀ r ∈ db.reservationSlots,
      (containCount (reserveSeq db calls).livestreams r.startAt r.endAt : Int) ≤
        (containCount db.livestreams r.startAt r.endAt : Int) + r.slot) ∧
    (∀ c : ReserveCall, ∀ ls,
      (reserveLivestream c.userID c.req c.cachedUser db).result = .created ls →
      ∀ r ∈ db.reservationSlots, slotContained c.req r = true →
        1 ≤ r.slot ∧
          findSlot (reserveLivestream c.userID c.req c.cachedUser db).db.reservationSlots
              r.startAt r.endAt = some { r with slot := r.slot - 1 }) := by
  obtain ⟨_, _, hseq⟩ := reserveSeq_invariant calls db hu hnn
  refine ⟨(reserveSeq_invariant calls db hu hnn).2.1, ?_, ?_⟩
  · intro r hr
    have hv : curSlotVal db r.startAt r.endAt = some r.slot := by
      unfold curSlotVal
      rw [findSlot_eq_self hu hr]
      rfl
    obtain ⟨w, _, h0, hsum⟩ := hseq r.startAt r.endAt r.slot hv
    omega
  · intro c ls hcr r hr hc
    rcases reserveLivestream_cases c.userID c.req c.cachedUser db with ⟨_, hne⟩ | ⟨_, hok, _, hdb⟩
    · exact absurd hcr (hne ls)
    · have hl : ∀ s ∈ db.reservationSlots.filter (slotContained c.req),
          findSlot db.reservationSlots s.startAt s.endAt = some s :=
        fun s hs => findSlot_eq_self hu (List.mem_filter.mp hs).1
      refine ⟨(slotsCheck_ok_iff hl).mp hok r (List.mem_filter.mpr ⟨hr, hc⟩), ?_⟩
      rw [hdb]
      simp only [commitReservation]
      rw [findSlot_decrementContained, findSlot_eq_self hu hr]
      simp [hc]

/-- Witness for C2 (amended) on a one-slot, one-request state. -/
theorem reserveSeq_no_overbooking_witness :
    (∀ r ∈ (reserveSeq dbSlotFree [⟨1, reqFirstHour, some userAlice⟩]).reservationSlots,
        0 ≤ r.slot) ∧
    (∀ r ∈ dbSlotFree.reservationSlots,
      (containCount (reserveSeq dbSlotFree [⟨1, reqFirstHour, some userAlice⟩]).livestreams
          r.startAt r.endAt : Int) ≤
        (containCount dbSlotFree.livestreams r.startAt r.endAt : Int) + r.slot) := by
  have h := reserveSeq_no_overbooking dbSlotFree [⟨1, reqFirstHour, some userAlice⟩]
    (by constructor
        · intro b hb; cases hb
        · exact List.Pairwise.nil)
    (by decide)
  exact ⟨h.1, h.2.1⟩

/-- Overlap of a slot interval with a half-open request range, as the
claim (and the spec glossary) uses the word: nonempty intersection. -/
def slotOverlaps (r : ReservationSlotModel) (a b : Int) : Prop :=
  r.startAt < b ∧ a < r.endAt

instance (r : ReservationSlotModel) (a b : Int) : Decidable (slotOverlaps r a b) := by
  unfold slotOverlaps
  infer_instance

def reqOverlap : ReserveRequest :=
  { tags := [], title := "o", description := "", playlistUrl := "", thumbnailUrl := "",
    startAt := 1700875800, endAt := 1700879400 }

/-- Counterexample to C2 as stated: a request whose range overlaps — but
does not fully contain — a slot with zero remaining capacity is admitted,
because the handler's containment query never selects that slot.  With
such requests the committed reservations overlapping a slot can exceed
its capacity without bound. -/
theorem reserveLivestream_ignores_partially_overlapped_slot :
    slotOverlaps slotFull reqOverlap.startAt reqOverlap.endAt ∧
    slotFull.slot = 0 ∧ slotFull ∈ dbSlotFull.reservationSlots ∧
    (reserveLivestream 1 reqOverlap (some userAlice) dbSlotFull).result =
      .created (newLivestream 1 reqOverlap dbSlotFull) := by
  refine ⟨by decide, by decide, by decide, by decide⟩

/-- Lexicographic character-list comparison underlying Go's built-in
string < (Go compares UTF-8 bytes; byte order and code-point order agree
under UTF-8, so comparing code points is the same order).  Written as a
structural recursion so it evaluates inside the kernel. -/
def strLtB : List Char → List Char → Bool
  | [], [] => false
  | _ :: _, [] => false
  | [], _ :: _ => true
  | a :: as, b :: bs =>
    decide (a.toNat < b.toNat) || (decide (a.toNat = b.toNat) && strLtB as bs)

/-- Go's s < t on strings. -/
def goStrLt (a b : String) : Bool :=
  strLtB a.data b.data

theorem strLtB_irrefl (x : List Char) : strLtB x x = false := by
  induction x with
  | nil => rfl
  | cons a as ih => simp [strLtB, ih]

theorem strLtB_trans :
    ∀ {x y z : List Char}, strLtB x y = true → strLtB y z = true → strLtB x z = true
  | [], [], _, h1, _ => by cases h1
  | _ :: _, [], _, h1, _ => by cases h1
  | [], _ :: _, [], _, h2 => by cases h2
  | _ :: _, _ :: _, [], _, h2 => by cases h2
  | [], b :: bs, c :: cs, _, _ => rfl
  | a :: as, b :: bs, c :: cs, h1, h2 => by
    simp only [strLtB, Bool.or_eq_true, Bool.and_eq_true, decide_eq_true_eq] at h1 h2 ⊢
    rcases h1 with h1 | ⟨h1e, h1r⟩
    · rcases h2 with h2 | ⟨h2e, h2r⟩
      · exact Or.inl (by omega)
      · exact Or.inl (by omega)
    · rcases h2 with h2 | ⟨h2e, h2r⟩
      · exact Or.inl (by omega)
      · exact Or.inr ⟨by omega, strLtB_trans h1r h2r⟩

theorem strLtB_trichotomy : ∀ (x y : List Char),
    strLtB x y = true ∨ strLtB y x = true ∨ x = y
  | [], [] => Or.inr (Or.inr rfl)
  | [], _ :: _ => Or.inl rfl
  | _ :: _, [] => Or.inr (Or.inl rfl)
  | a :: as, b :: bs => by
    rcases Nat.lt_trichotomy a.toNat b.toNat with h | h | h
    · exact Or.inl (by simp [strLtB, h])
    · have hab : a = b := Char.ext (UInt32.ext h)
      subst hab
      rcases strLtB_trichotomy as bs with h2 | h2 | h2
      · exact Or.inl (by simp [strLtB, h2])
      · exact Or.inr (Or.inl (by simp [strLtB, h2]))
      · exact Or.inr (Or.inr (by rw [h2]))
    · exact Or.inr (Or.inl (by simp [strLtB, h]))

theorem goStrLt_irrefl (a : String) : goStrLt a a = false :=
  strLtB_irrefl a.data

theorem goStrLt_trans {a b c : String} (h1 : goStrLt a b = true) (h2 : goStrLt b c = true) :
    goStrLt a c = true :=
  strLtB_trans h1 h2

theorem goStrLt_trichotomy (a b : String) :
    goStrLt a b = true ∨ goStrLt b a = true ∨ a = b := by
  rcases strLtB_trichotomy a.data b.data with h | h | h
  · exact Or.inl h
  · exact Or.inr (Or.inl h)
  · exact Or.inr (Or.inr (String.ext h))

theorem goStrLt_asymm {a b : String} (h1 : goStrLt a b = true) (h2 : goStrLt b a = true) :
    False := by
  have := goStrLt_trans h1 h2
  rw [goStrLt_irrefl] at this
  cases this

/-- Entry of the per-user ranking (UserRankingEntry in Go). -/
structure UserRankingEntry where
  username : String
  score : Int
deriving DecidableEq, Repr

/-- Entry of the per-livestream ranking (LivestreamRankingEntry in Go). -/
structure LivestreamRankingEntry where
  livestreamID : Int
  score : Int
deriving DecidableEq, Repr

/-- UserRanking.Less from the Go source: ascending by score, ties broken
by username ascending. -/
def UserRanking.less (a b : UserRankingEntry) : Bool :=
  if a.score == b.score then goStrLt a.username b.username else decide (a.score < b.score)

/-- Complement order used to characterize sort.Sort output: a may stay
before b exactly when Less(b, a) fails. -/
def UserRanking.le (a b : UserRankingEntry) : Bool :=
  !UserRanking.less b a

/-- LivestreamRanking.Less from the Go source: ascending by score, ties
broken by livestream id ascending. -/
def LivestreamRanking.less (a b : LivestreamRankingEntry) : Bool :=
  if a.score == b.score then decide (a.livestreamID < b.livestreamID)
  else decide (a.score < b.score)

def LivestreamRanking.le (a b : LivestreamRankingEntry) : Bool :=
  !LivestreamRanking.less b a

/-- sort.Sort(ranking): Go's sort is unstable, but on rankings with
pairwise distinct keys the Less order is a strict total order, so every
correct sort returns the one list that is pairwise ordered by le; an
insertion sort computes it and evaluates in the kernel. -/
def sortUserRanking (l : List UserRankingEntry) : List UserRankingEntry :=
  List.insertionSort (fun a b => UserRanking.le a b = true) l

def sortLivestreamRanking (l : List LivestreamRankingEntry) : List LivestreamRankingEntry :=
  List.insertionSort (fun a b => LivestreamRanking.le a b = true) l

/-- The rank loop of getUserStatisticsHandler, walking the ascending
ranking from its top (the handler iterates indices downward; here the
walked list is the reversed sorted ranking): rank starts at 1 and grows
until the target username is reached. -/
def rankLoopUser (username : String) : List UserRankingEntry → Int
  | [] => 1
  | e :: rest => if e.username = username then 1 else 1 + rankLoopUser username rest

def rankLoopLivestream (livestreamID : Int) : List LivestreamRankingEntry → Int
  | [] => 1
  | e :: rest => if e.livestreamID = livestreamID then 1 else 1 + rankLoopLivestream livestreamID rest

/-- Ranking entries built by getUserStatisticsHandler from the full users
scan: score = reactions + tips. -/
def buildUserRanking (users : List UserModel) : List UserRankingEntry :=
  users.map (fun u => { username := u.name, score := u.reactions + u.tips })

/-- Ranking entries built by getLivestreamStatisticsHandler from the full
livestreams scan: score = reactions + tips. -/
def buildLivestreamRanking (streams : List LivestreamModel) : List LivestreamRankingEntry :=
  streams.map (fun l => { livestreamID := l.id, score := l.reactions + l.tips })

/-- The rank reported by getUserStatisticsHandler over a snapshot of the
users table. -/
def userStatisticsRank (users : List UserModel) (username : String) : Int :=
  rankLoopUser username (sortUserRanking (buildUserRanking users)).reverse

/-- The rank reported by getLivestreamStatisticsHandler over a snapshot
of the livestreams table. -/
def livestreamStatisticsRank (streams : List LivestreamModel) (livestreamID : Int) : Int :=
  rankLoopLivestream livestreamID (sortLivestreamRanking (buildLivestreamRanking streams)).reverse

/-- Generic form of the two rank loops. -/
def rankWalk {α κ : Type} [DecidableEq κ] (key : α → κ) (k : κ) : List α → Int
  | [] => 1
  | e :: rest => if key e = k then 1 else 1 + rankWalk key k rest

theorem rankLoopUser_eq_rankWalk (username : String) (l : List UserRankingEntry) :
    rankLoopUser username l = rankWalk (fun e => e.username) username l := by
  induction l with
  | nil => rfl
  | cons e rest ih => simp [rankLoopUser, rankWalk, ih]

theorem rankLoopLivestream_eq_rankWalk (livestreamID : Int) (l : List LivestreamRankingEntry) :
    rankLoopLivestream livestreamID l = rankWalk (fun e => e.livestreamID) livestreamID l := by
  induction l with
  | nil => rfl
  | cons e rest ih => simp [rankLoopLivestream, rankWalk, ih]

/-- Walking a descending list (no element is Less than a later one) with
pairwise distinct keys, the loop stops after exactly the elements that
strictly outrank the target. -/
theorem rankWalk_count {α κ : Type} [DecidableEq κ] (key : α → κ) (less : α → α → Bool) (t : α)
    (hirr : ∀ a, less a a = false)
    (hconn : ∀ a b, key a ≠ key b → less a b = false → less b a = true) :
    ∀ l : List α, l.Pairwise (fun a b => less a b = false) →
      l.Pairwise (fun a b => key a ≠ key b) → t ∈ l →
      rankWalk key (key t) l = 1 + (l.countP (fun y => less t y) : Int) := by
  intro l
  induction l with
  | nil => intro _ _ ht; cases ht
  | cons x rest ih =>
    intro hdesc hkeys ht
    by_cases hk : key x = key t
    · have hx : t = x := by
        rcases List.mem_cons.mp ht with h | h
        · exact h
        · exact absurd hk ((List.pairwise_cons.mp hkeys).1 t h)
      subst hx
      unfold rankWalk
      rw [if_pos rfl]
      have hz : List.countP (fun y => less t y) (t :: rest) = 0 := by
        rw [List.countP_eq_zero]
        intro y hy
        rcases List.mem_cons.mp hy with h | h
        · subst h; simp [hirr]
        · simp [(List.pairwise_cons.mp hdesc).1 y h]
      rw [hz]
      rfl
    · have ht2 : t ∈ rest := by
        rcases List.mem_cons.mp ht with h | h
        · subst h; exact absurd rfl hk
        · exact h
      unfold rankWalk
      rw [if_neg hk]
      rw [ih (List.pairwise_cons.mp hdesc).2 (List.pairwise_cons.mp hkeys).2 ht2]
      have hlt : less t x = true :=
        hconn x t hk ((List.pairwise_cons.mp hdesc).1 t ht2)
      rw [List.countP_cons, hlt]
      rw [if_pos rfl]
      push_cast
      ring

theorem userLess_eq (a b : UserRankingEntry) :
    UserRanking.less a b =
      (decide (a.score < b.score) ||
        (decide (a.score = b.score) && goStrLt a.username b.username)) := by
  unfold UserRanking.less
  rcases eq_or_ne a.score b.score with hs | hs
  · simp [hs]
  · simp [hs]

theorem livestreamLess_eq (a b : LivestreamRankingEntry) :
    LivestreamRanking.less a b =
      (decide (a.score < b.score) ||
        (decide (a.score = b.score) && decide (a.livestreamID < b.livestreamID))) := by
  unfold LivestreamRanking.less
  rcases eq_or_ne a.score b.score with hs | hs
  · simp [hs]
  · simp [hs]

theorem userLess_irrefl (a : UserRankingEntry) : UserRanking.less a a = false := by
  rw [userLess_eq]
  simp [goStrLt_irrefl]

theorem livestreamLess_irrefl (a : LivestreamRankingEntry) :
    LivestreamRanking.less a a = false := by
  rw [livestreamLess_eq]
  simp

theorem userLess_asymm {a b : UserRankingEntry}
    (h1 : UserRanking.less a b = true) (h2 : UserRanking.less b a = true) : False := by
  rw [userLess_eq] at h1 h2
  simp only [Bool.or_eq_true, Bool.and_eq_true, decide_eq_true_eq] at h1 h2
  rcases h1 with h1 | ⟨h1e, h1n⟩ <;> rcases h2 with h2 | ⟨h2e, h2n⟩
  · omega
  · omega
  · omega
  · exact goStrLt_asymm h1n h2n

theorem livestreamLess_asymm {a b : LivestreamRankingEntry}
    (h1 : LivestreamRanking.less a b = true) (h2 : LivestreamRanking.less b a = true) :
    False := by
  rw [livestreamLess_eq] at h1 h2
  simp only [Bool.or_eq_true, Bool.and_eq_true, decide_eq_true_eq] at h1 h2
  omega

theorem userLess_conn (a b : UserRankingEntry) (hk : a.username ≠ b.username)
    (hf : UserRanking.less a b = false) : UserRanking.less b a = true := by
  rw [userLess_eq] at hf ⊢
  simp only [Bool.or_eq_false_iff, Bool.and_eq_false_iff, decide_eq_false_iff_not,
    Bool.or_eq_true, Bool.and_eq_true, decide_eq_true_eq] at hf ⊢
  rcases eq_or_ne a.score b.score with hs | hs
  · rcases goStrLt_trichotomy a.username b.username with h | h | h
    · rcases hf.2 with h2 | h2
      · omega
      · rw [h] at h2; cases h2
    · exact Or.inr ⟨hs.symm, h⟩
    · exact absurd h hk
  · exact Or.inl (by omega)

theorem livestreamLess_conn (a b : LivestreamRankingEntry)
    (hk : a.livestreamID ≠ b.livestreamID)
    (hf : LivestreamRanking.less a b = false) : LivestreamRanking.less b a = true := by
  rw [livestreamLess_eq] at hf ⊢
  simp only [Bool.or_eq_false_iff, Bool.and_eq_false_iff, decide_eq_false_iff_not,
    Bool.or_eq_true, Bool.and_eq_true, decide_eq_true_eq] at hf ⊢
  omega

theorem userLess_trans {a b c : UserRankingEntry}
    (h1 : UserRanking.less a b = true) (h2 : UserRanking.less b c = true) :
    UserRanking.less a c = true := by
  rw [userLess_eq] at h1 h2 ⊢
  simp only [Bool.or_eq_true, Bool.and_eq_true, decide_eq_true_eq] at h1 h2 ⊢
  rcases h1 with h1 | ⟨h1e, h1n⟩ <;> rcases h2 with h2 | ⟨h2e, h2n⟩
  · exact Or.inl (by omega)
  · exact Or.inl (by omega)
  · exact Or.inl (by omega)
  · exact Or.inr ⟨by omega, goStrLt_trans h1n h2n⟩

theorem userLess_strongtrans (a b c : UserRankingEntry)
    (h : UserRanking.less c a = true) :
    UserRanking.less c b = true ∨ UserRanking.less b a = true := by
  by_cases hcb : UserRanking.less c b = true
  · exact Or.inl hcb
  · right
    rw [userLess_eq] at h ⊢
    rw [userLess_eq] at hcb
    simp only [Bool.or_eq_true, Bool.and_eq_true, decide_eq_true_eq] at h hcb ⊢
    push_neg at hcb
    rcases h with h | ⟨he, hn⟩
    · rcases lt_trichotomy b.score a.score with hb | hb | hb
      · exact Or.inl hb
      · left
        rcases hcb with hcb
        omega
      · exfalso
        rcases hcb with hcb
        omega
    · rcases lt_trichotomy b.score a.score with hb | hb | hb
      · exact Or.inl hb
      · right
        refine ⟨hb, ?_⟩
        have hbc : ¬goStrLt c.username b.username = true := by
          intro hx
          exact (hcb.2 (by omega)) hx
        rcases goStrLt_trichotomy c.username b.username with hx | hx | hx
        · exact absurd hx hbc
        · exact goStrLt_trans hx hn
        · rw [← hx]; exact hn
      · exfalso; omega

theorem livestreamLess_strongtrans (a b c : LivestreamRankingEntry)
    (h : LivestreamRanking.less c a = true) :
    LivestreamRanking.less c b = true ∨ LivestreamRanking.less b a = true := by
  rw [livestreamLess_eq] at h ⊢
  rw [livestreamLess_eq]
  simp only [Bool.or_eq_true, Bool.and_eq_true, decide_eq_true_eq] at h ⊢
  omega

theorem sortUserRanking_sorted (l : List UserRankingEntry) :
    (sortUserRanking l).Pairwise (fun a b => UserRanking.less b a = false) := by
  haveI : IsTotal UserRankingEntry (fun a b => UserRanking.le a b = true) := by
    constructor
    intro a b
    by_cases h1 : UserRanking.less b a = true
    · right
      unfold UserRanking.le
      rw [Bool.not_eq_true']
      by_cases h2 : UserRanking.less a b = true
      · exact absurd (userLess_asymm h2 h1) (fun h => h)
      · exact Bool.not_eq_true _ ▸ h2
    · left
      unfold UserRanking.le
      rw [Bool.not_eq_true']
      exact Bool.not_eq_true _ ▸ h1
  haveI : IsTrans UserRankingEntry (fun a b => UserRanking.le a b = true) := by
    constructor
    intro a b c hab hbc
    unfold UserRanking.le at hab hbc ⊢
    rw [Bool.not_eq_true'] at hab hbc ⊢
    by_contra h
    rw [Bool.not_eq_false] at h
    rcases userLess_strongtrans a b c h with h2 | h2
    · rw [hbc] at h2; cases h2
    · rw [hab] at h2; cases h2
  have hs := List.sorted_insertionSort (fun a b => UserRanking.le a b = true) l
  exact hs.imp (fun {a b} h => by
    unfold UserRanking.le at h
    rwa [Bool.not_eq_true'] at h)

theorem sortLivestreamRanking_sorted (l : List LivestreamRankingEntry) :
    (sortLivestreamRanking l).Pairwise (fun a b => LivestreamRanking.less b a = false) := by
  haveI : IsTotal LivestreamRankingEntry (fun a b => LivestreamRanking.le a b = true) := by
    constructor
    intro a b
    by_cases h1 : LivestreamRanking.less b a = true
    · right
      unfold LivestreamRanking.le
      rw [Bool.not_eq_true']
      by_cases h2 : LivestreamRanking.less a b = true
      · exact absurd (livestreamLess_asymm h2 h1) (fun h => h)
      · exact Bool.not_eq_true _ ▸ h2
    · left
      unfold LivestreamRanking.le
      rw [Bool.not_eq_true']
      exact Bool.not_eq_true _ ▸ h1
  haveI : IsTrans LivestreamRankingEntry (fun a b => LivestreamRanking.le a b = true) := by
    constructor
    intro a b c hab hbc
    unfold LivestreamRanking.le at hab hbc ⊢
    rw [Bool.not_eq_true'] at hab hbc ⊢
    by_contra h
    rw [Bool.not_eq_false] at h
    rcases livestreamLess_strongtrans a b c h with h2 | h2
    · rw [hbc] at h2; cases h2
    · rw [hab] at h2; cases h2
  have hs := List.sorted_insertionSort (fun a b => LivestreamRanking.le a b = true) l
  exact hs.imp (fun {a b} h => by
    unfold LivestreamRanking.le at h
    rwa [Bool.not_eq_true'] at h)

theorem userStatisticsRank_eq (users : List UserModel) (u : UserModel)
    (hnames : users.Pairwise (fun a b => a.name ≠ b.name)) (hu : u ∈ users) :
    userStatisticsRank users u.name =
      1 + ((users.countP (fun v => UserRanking.less
        { username := u.name, score := u.reactions + u.tips }
        { username := v.name, score := v.reactions + v.tips })) : Int) := by
  have htE : ({ username := u.name, score := u.reactions + u.tips } : UserRankingEntry) ∈
      buildUserRanking users := List.mem_map_of_mem _ hu
  have hkeys : (buildUserRanking users).Pairwise (fun a b => a.username ≠ b.username) := by
    unfold buildUserRanking
    rw [List.pairwise_map]
    exact hnames
  have hdesc : (sortUserRanking (buildUserRanking users)).reverse.Pairwise
      (fun a b => UserRanking.less a b = false) :=
    List.pairwise_reverse.mpr (sortUserRanking_sorted (buildUserRanking users))
  have hperm : (sortUserRanking (buildUserRanking users)).reverse.Perm
      (buildUserRanking users) :=
    (List.reverse_perm _).trans (List.perm_insertionSort _ _)
  have hkeys2 : (sortUserRanking (buildUserRanking users)).reverse.Pairwise
      (fun a b => a.username ≠ b.username) :=
    (hperm.pairwise_iff (fun h => h.symm)).mpr hkeys
  have hmem : ({ username := u.name, score := u.reactions + u.tips } : UserRankingEntry) ∈
      (sortUserRanking (buildUserRanking users)).reverse :=
    hperm.mem_iff.mpr htE
  have hwalk := rankWalk_count (fun e => e.username) UserRanking.less
    { username := u.name, score := u.reactions + u.tips }
    userLess_irrefl userLess_conn
    (sortUserRanking (buildUserRanking users)).reverse hdesc hkeys2 hmem
  unfold userStatisticsRank
  rw [rankLoopUser_eq_rankWalk]
  rw [hwalk]
  congr 1
  norm_cast
  rw [hperm.countP_eq]
  unfold buildUserRanking
  rw [List.countP_map]
  rfl

theorem livestreamStatisticsRank_eq (streams : List LivestreamModel) (l : LivestreamModel)
    (hids : streams.Pairwise (fun a b => a.id ≠ b.id)) (hl : l ∈ streams) :
    livestreamStatisticsRank streams l.id =
      1 + ((streams.countP (fun m => LivestreamRanking.less
        { livestreamID := l.id, score := l.reactions + l.tips }
        { livestreamID := m.id, score := m.reactions + m.tips })) : Int) := by
  have htE : ({ livestreamID := l.id, score := l.reactions + l.tips } :
      LivestreamRankingEntry) ∈ buildLivestreamRanking streams := List.mem_map_of_mem _ hl
  have hkeys : (buildLivestreamRanking streams).Pairwise
      (fun a b => a.livestreamID ≠ b.livestreamID) := by
    unfold buildLivestreamRanking
    rw [List.pairwise_map]
    exact hids
  have hdesc : (sortLivestreamRanking (buildLivestreamRanking streams)).reverse.Pairwise
      (fun a b => LivestreamRanking.less a b = false) :=
    List.pairwise_reverse.mpr (sortLivestreamRanking_sorted (buildLivestreamRanking streams))
  have hperm : (sortLivestreamRanking (buildLivestreamRanking streams)).reverse.Perm
      (buildLivestreamRanking streams) :=
    (List.reverse_perm _).trans (List.perm_insertionSort _ _)
  have hkeys2 : (sortLivestreamRanking (buildLivestreamRanking streams)).reverse.Pairwise
      (fun a b => a.livestreamID ≠ b.livestreamID) :=
    (hperm.pairwise_iff (fun h => h.symm)).mpr hkeys
  have hmem : ({ livestreamID := l.id, score := l.reactions + l.tips } :
      LivestreamRankingEntry) ∈
      (sortLivestreamRanking (buildLivestreamRanking streams)).reverse :=
    hperm.mem_iff.mpr htE
  have hwalk := rankWalk_count (fun e => e.livestreamID) LivestreamRanking.less
    { livestreamID := l.id, score := l.reactions + l.tips }
    livestreamLess_irrefl livestreamLess_conn
    (sortLivestreamRanking (buildLivestreamRanking streams)).reverse hdesc hkeys2 hmem
  unfold livestreamStatisticsRank
  rw [rankLoopLivestream_eq_rankWalk]
  rw [hwalk]
  congr 1
  norm_cast
  rw [hperm.countP_eq]
  unfold buildLivestreamRanking
  rw [List.countP_map]
  rfl

/-- C5: for a fixed snapshot, the rank returned for a user (found by name)
or a broadcast (found by id) equals 1 plus the number of entities that
strictly outrank the target in the ascending (score, tie-break key) order
— score is reactions + tips, ties break by name for users and by id for
broadcasts, and an entity outranks the target if its score is larger, or
equal with a larger key. -/
theorem statisticsRank_counts_strictly_greater :
    (∀ (users : List UserModel) (username : String) (u : UserModel),
      users.Pairwise (fun a b => a.name ≠ b.name) → u ∈ users → u.name = username →
      userStatisticsRank users username =
        1 + ((users.countP (fun v =>
          decide (u.reactions + u.tips < v.reactions + v.tips) ||
          (decide (u.reactions + u.tips = v.reactions + v.tips) &&
            goStrLt u.name v.name))) : Int)) ∧
    (∀ (streams : List LivestreamModel) (livestreamID : Int) (l : LivestreamModel),
      streams.Pairwise (fun a b => a.id ≠ b.id) → l ∈ streams → l.id = livestreamID →
      livestreamStatisticsRank streams livestreamID =
        1 + ((streams.countP (fun m =>
          decide (l.reactions + l.tips < m.reactions + m.tips) ||
          (decide (l.reactions + l.tips = m.reactions + m.tips) &&
            decide (l.id < m.id)))) : Int)) := by
  constructor
  · intro users username u hnames hu hname
    subst hname
    rw [userStatisticsRank_eq users u hnames hu]
    congr 2
    apply List.countP_congr
    intro v hv
    rw [userLess_eq]
  · intro streams livestreamID l hids hl hid
    subst hid
    rw [livestreamStatisticsRank_eq streams l hids hl]
    congr 2
    apply List.countP_congr
    intro m hm
    rw [livestreamLess_eq]

def userA : UserModel :=
  { id := 1, name := "A", displayName := "A", description := "",
    hashedPassword := "", darkMode := false, reactions := 10, tips := 5,
    liveComments := 0, iconHash := [] }

def userB : UserModel :=
  { id := 2, name := "B", displayName := "B", description := "",
    hashedPassword := "", darkMode := false, reactions := 7, tips := 8,
    liveComments := 0, iconHash := [] }

/-- Witness for C5 on a two-user snapshot with tied scores. -/
theorem statisticsRank_counts_strictly_greater_witness :
    ([userA, userB].Pairwise (fun a b => a.name ≠ b.name)) ∧ userA ∈ [userA, userB] ∧
      userStatisticsRank [userA, userB] "A" = 2 := by
  refine ⟨by decide, by decide, ?_⟩
  have h := statisticsRank_counts_strictly_greater.1 [userA, userB] "A" userA
    (by decide) (by decide) (by decide)
  rw [h]
  decide

theorem countP_lt_of_mem {α : Type} (p q : α → Bool) (l : List α) (x : α) (hx : x ∈ l)
    (hpq : ∀ a ∈ l, p a = true → q a = true) (hqx : q x = true) (hpx : p x = false) :
    l.countP p < l.countP q := by
  induction l with
  | nil => cases hx
  | cons a rest ih =>
    rw [List.countP_cons, List.countP_cons]
    rcases List.mem_cons.mp hx with h | h
    · subst h
      rw [hqx, hpx]
      have hle : rest.countP p ≤ rest.countP q :=
        List.countP_mono_left (fun a ha hpa => hpq a (List.mem_cons_of_mem _ ha) hpa)
      have h1 : (if (true : Bool) = true then 1 else 0) = 1 := rfl
      have h2 : (if (false : Bool) = true then 1 else 0) = 0 := rfl
      rw [h1, h2]
      omega
    · have hlt := ih h (fun a ha => hpq a (List.mem_cons_of_mem _ ha))
      have hhead : (if p a = true then 1 else 0) ≤ (if q a = true then 1 else 0) := by
        by_cases hp : p a = true
        · rw [if_pos hp, if_pos (hpq a (List.mem_cons_self a rest) hp)]
        · rw [if_neg hp]
          omega
      omega

/-- C6 (amended): for two users with equal score, the user whose name is
lexicographically larger receives the numerically smaller (better) rank:
the ascending sort puts the larger name later and the rank walk starts
from the high end. -/
theorem userStatisticsRank_ties_favor_larger_name (users : List UserModel)
    (u v : UserModel) (hnames : users.Pairwise (fun a b => a.name ≠ b.name))
    (hu : u ∈ users) (hv : v ∈ users)
    (hs : u.reactions + u.tips = v.reactions + v.tips)
    (hlt : goStrLt u.name v.name = true) :
    userStatisticsRank users v.name < userStatisticsRank users u.name := by
  rw [userStatisticsRank_eq users u hnames hu, userStatisticsRank_eq users v hnames hv]
  have huv : UserRanking.less
      { username := u.name, score := u.reactions + u.tips }
      { username := v.name, score := v.reactions + v.tips } = true := by
    rw [userLess_eq]
    simp [hs, hlt]
  have hcount := countP_lt_of_mem
    (fun w => UserRanking.less
      { username := v.name, score := v.reactions + v.tips }
      { username := w.name, score := w.reactions + w.tips })
    (fun w => UserRanking.less
      { username := u.name, score := u.reactions + u.tips }
      { username := w.name, score := w.reactions + w.tips })
    users v hv
    (fun w _ hw => userLess_trans huv hw)
    huv
    (userLess_irrefl _)
  omega

/-- Counterexample to C6 as stated: with the spec's own example scores
(A: 10 reactions + 5 tips, B: 7 reactions + 8 tips, both 15), the
alphabetically earlier name A receives rank 2 and B receives rank 1 — the
earlier name gets the numerically larger rank, not the smaller one. -/
theorem userStatisticsRank_tie_counterexample :
    userA.reactions + userA.tips = userB.reactions + userB.tips ∧
    goStrLt userA.name userB.name = true ∧
    userStatisticsRank [userA, userB] "A" = 2 ∧
    userStatisticsRank [userA, userB] "B" = 1 := by
  refine ⟨by decide, by decide, by decide, by decide⟩

/-- Witness for C6 (amended) on the spec's example pair. -/
theorem userStatisticsRank_ties_favor_larger_name_witness :
    userStatisticsRank [userA, userB] "B" < userStatisticsRank [userA, userB] "A" :=
  userStatisticsRank_ties_favor_larger_name [userA, userB] userA userB
    (by decide) (by decide) (by decide) (by decide) (by decide)

/-- One entry of an in-process gocache instance: key, stored value, and
the time it was stored (milliseconds). -/
structure CacheEntry (κ ν : Type) where
  key : κ
  val : ν
  setAt : Nat
deriving DecidableEq, Repr

/-- gocache.New(gocache.WithExpireAt(60 * time.Minute)) for userCache. -/
def userCacheTTLMillis : Nat := 3600000

/-- gocache.New(gocache.WithExpireAt(1500 * time.Millisecond)) for iconCache. -/
def iconCacheTTLMillis : Nat := 1500

/-- Get on a gocache map: the newest entry for the key (Set overwrites,
modelled by prepending) if it has not yet expired. -/
def cacheGet {κ ν : Type} [DecidableEq κ] (ttl now : Nat)
    (entries : List (CacheEntry κ ν)) (k : κ) : Option ν :=
  match entries.find? (fun e => decide (e.key = k)) with
  | some e => if now < e.setAt + ttl then some e.val else none
  | none => none

/-- Set on a gocache map. -/
def cacheSet {κ ν : Type} (now : Nat) (k : κ) (v : ν)
    (entries : List (CacheEntry κ ν)) : List (CacheEntry κ ν) :=
  { key := k, val := v, setAt := now } :: entries

/-- State of the two in-process caches: userCache under its id: keys and
its name: keys, and iconCache keyed by user name. -/
structure UserCacheState where
  byId : List (CacheEntry Int UserModel)
  byName : List (CacheEntry String UserModel)
  iconByName : List (CacheEntry String (List Nat))
deriving DecidableEq, Repr

/-- The three Sets every read-through population performs, from the one
row just read: userCache under id:idKey and name:row.name, iconCache
under row.name. -/
def storeUserInCaches (now : Nat) (idKey : Int) (row : UserModel)
    (c : UserCacheState) : UserCacheState :=
  { byId := cacheSet now idKey row c.byId,
    byName := cacheSet now row.name row c.byName,
    iconByName := cacheSet now row.name row.iconHash c.iconByName }

/-- getUserWithCache: serve from userCache (id key) when the icon cache
also holds a fresh fingerprint for the cached name, else read the users
row through the store and populate all three entries; a missing row (the
sql.ErrNoRows path) returns none and caches nothing. -/
def getUserWithCache (now : Nat) (users : List UserModel) (c : UserCacheState)
    (userId : Int) : Option UserModel × UserCacheState :=
  match cacheGet userCacheTTLMillis now c.byId userId with
  | some u =>
    match cacheGet iconCacheTTLMillis now c.iconByName u.name with
    | some h => (some { u with iconHash := h }, c)
    | none =>
      match users.find? (fun x => decide (x.id = userId)) with
      | none => (none, c)
      | some row => (some row, storeUserInCaches now userId row c)
  | none =>
    match users.find? (fun x => decide (x.id = userId)) with
    | none => (none, c)
    | some row => (some row, storeUserInCaches now userId row c)

/-- getUserByName: same shape as getUserWithCache over the name: keys;
the population keys the id entry by the row's own id. -/
def getUserByName (now : Nat) (users : List UserModel) (c : UserCacheState)
    (userName : String) : Option UserModel × UserCacheState :=
  match cacheGet userCacheTTLMillis now c.byName userName with
  | some u =>
    match cacheGet iconCacheTTLMillis now c.iconByName u.name with
    | some h => (some { u with iconHash := h }, c)
    | none =>
      match users.find? (fun x => decide (x.name = userName)) with
      | none => (none, c)
      | some row => (some row, storeUserInCaches now row.id row c)
  | none =>
    match users.find? (fun x => decide (x.name = userName)) with
    | none => (none, c)
    | some row => (some row, storeUserInCaches now row.id row c)

/-- C7: each read-through path either leaves the caches untouched or
populates the id-keyed, name-keyed and icon entries together from the
single users row it read; and immediately after any such population both
lookup paths return exactly that row (identical field values). -/
theorem cache_population_dual_key :
    (∀ (now : Nat) (users : List UserModel) (c : UserCacheState) (userId : Int),
      (getUserWithCache now users c userId).2 = c ∨
      ∃ row, users.find? (fun x => decide (x.id = userId)) = some row ∧
        (getUserWithCache now users c userId).2 = storeUserInCaches now userId row c) ∧
    (∀ (now : Nat) (users : List UserModel) (c : UserCacheState) (userName : String),
      (getUserByName now users c userName).2 = c ∨
      ∃ row, users.find? (fun x => decide (x.name = userName)) = some row ∧
        (getUserByName now users c userName).2 = storeUserInCaches now row.id row c) ∧
    (∀ (now : Nat) (users : List UserModel) (c : UserCacheState)
        (idKey : Int) (row : UserModel),
      (getUserWithCache now users (storeUserInCaches now idKey row c) idKey).1 = some row ∧
      (getUserByName now users (storeUserInCaches now idKey row c) row.name).1 = some row) := by
  refine ⟨?_, ?_, ?_⟩
  · intro now users c userId
    unfold getUserWithCache
    cases cacheGet userCacheTTLMillis now c.byId userId with
    | none =>
      dsimp only
      cases hf : users.find? (fun x => decide (x.id = userId)) with
      | none => exact Or.inl rfl
      | some row => exact Or.inr ⟨row, rfl, rfl⟩
    | some u =>
      dsimp only
      cases cacheGet iconCacheTTLMillis now c.iconByName u.name with
      | some h => exact Or.inl rfl
      | none =>
        dsimp only
        cases hf : users.find? (fun x => decide (x.id = userId)) with
        | none => exact Or.inl rfl
        | some row => exact Or.inr ⟨row, rfl, rfl⟩
  · intro now users c userName
    unfold getUserByName
    cases cacheGet userCacheTTLMillis now c.byName userName with
    | none =>
      dsimp only
      cases hf : users.find? (fun x => decide (x.name = userName)) with
      | none => exact Or.inl rfl
      | some row => exact Or.inr ⟨row, rfl, rfl⟩
    | some u =>
      dsimp only
      cases cacheGet iconCacheTTLMillis now c.iconByName u.name with
      | some h => exact Or.inl rfl
      | none =>
        dsimp only
        cases hf : users.find? (fun x => decide (x.name = userName)) with
        | none => exact Or.inl rfl
        | some row => exact Or.inr ⟨row, rfl, rfl⟩
  · intro now users c idKey row
    constructor
    · unfold getUserWithCache storeUserInCaches cacheSet cacheGet
      simp [userCacheTTLMillis, iconCacheTTLMillis]
    · unfold getUserByName storeUserInCaches cacheSet cacheGet
      simp [userCacheTTLMillis, iconCacheTTLMillis]

/-- Lowercase hex digit. -/
def hexDigit (n : Nat) : Char :=
  if n < 10 then Char.ofNat (48 + n) else Char.ofNat (87 + n)

/-- Two-digit lowercase hex of one byte, as Go fmt %x prints each byte. -/
def byteHex (b : Nat) : String :=
  String.mk [hexDigit (b / 16 % 16), hexDigit (b % 16)]

def bytesHex : List Nat → String
  | [] => ""
  | b :: bs => byteHex b ++ bytesHex bs

/-- fmt.Sprintf("\x22%x\x22", hash): the ETag form the handler compares
against If-None-Match. -/
def quotedHex (bs : List Nat) : String :=
  "\"" ++ bytesHex bs ++ "\""

/-- Responses of getIconHandler: 304, 404, the stored image blob with
200, or the fixed fallback image file. -/
inductive IconResponse where
  | notModified
  | notFound
  | imageBlob (image : List Nat)
  | fallbackFile
deriving DecidableEq, Repr

/-- getIconHandler: an If-None-Match header matching the cached icon
fingerprint answers 304 before any user lookup; then the user is resolved
by name through the read-through cache (missing user: 404); a matching
If-None-Match against the resolved icon_hash answers 304; otherwise the
icons row is served, falling back to the fixed default image file when
the user has no icons row. -/
def iconCacheEtagHit (now : Nat) (ifNoneMatch username : String)
    (c : UserCacheState) : Bool :=
  match cacheGet iconCacheTTLMillis now c.iconByName username with
  | some h => decide (ifNoneMatch = quotedHex h)
  | none => false

def getIconHandler (now : Nat) (ifNoneMatch : String) (username : String)
    (users : List UserModel) (icons : List IconModel) (c : UserCacheState) :
    IconResponse × UserCacheState :=
  if ifNoneMatch ≠ "" ∧ iconCacheEtagHit now ifNoneMatch username c = true then
    (.notModified, c)
  else
    match getUserByName now users c username with
    | (none, c2) => (.notFound, c2)
    | (some user, c2) =>
      if ifNoneMatch ≠ "" ∧ quotedHex user.iconHash = ifNoneMatch then
        (.notModified, c2)
      else
        match icons.find? (fun ic => decide (ic.userId = user.id)) with
        | none => (.fallbackFile, c2)
        | some ic => (.imageBlob ic.image, c2)

/-- A name-keyed user cache entry never points at a different user than
the store row of that name: entries are only written from store rows, and
id and name are immutable.  States reachable by the modelled operations
satisfy this. -/
def UserByNameCacheConsistent (c : UserCacheState) (users : List UserModel) : Prop :=
  ∀ e ∈ c.byName, ∃ u, users.find? (fun x => decide (x.name = e.key)) = some u ∧
    e.val.id = u.id

theorem cacheGet_some_mem {κ ν : Type} [DecidableEq κ] {ttl now : Nat}
    {entries : List (CacheEntry κ ν)} {k : κ} {v : ν}
    (h : cacheGet ttl now entries k = some v) :
    ∃ e ∈ entries, e.key = k ∧ e.val = v := by
  unfold cacheGet at h
  rcases hf : entries.find? (fun e => decide (e.key = k)) with _ | e
  · rw [hf] at h; cases h
  · rw [hf] at h
    dsimp only at h
    have hm := List.mem_of_find?_eq_some hf
    have hk := List.find?_some hf
    simp only [decide_eq_true_eq] at hk
    by_cases ht : now < e.setAt + ttl
    · rw [if_pos ht] at h
      injection h with h
      exact ⟨e, hm, hk, h⟩
    · rw [if_neg ht] at h
      cases h

theorem getUserByName_none {now : Nat} {users : List UserModel} {c : UserCacheState}
    {userName : String}
    (h : (getUserByName now users c userName).1 = none) :
    users.find? (fun x => decide (x.name = userName)) = none := by
  unfold getUserByName at h
  cases hby : cacheGet userCacheTTLMillis now c.byName userName with
  | some w =>
    rw [hby] at h
    dsimp only at h
    cases hic : cacheGet iconCacheTTLMillis now c.iconByName w.name with
    | some hsh => rw [hic] at h; dsimp only at h; cases h
    | none =>
      rw [hic] at h
      dsimp only at h
      cases hf : users.find? (fun x => decide (x.name = userName)) with
      | none => rfl
      | some row => rw [hf] at h; dsimp only at h; cases h
  | none =>
    rw [hby] at h
    dsimp only at h
    cases hf : users.find? (fun x => decide (x.name = userName)) with
    | none => rfl
    | some row => rw [hf] at h; dsimp only at h; cases h

theorem getUserByName_id_of_consistent {now : Nat} {users : List UserModel}
    {c : UserCacheState} {userName : String} {u : UserModel}
    (hcons : UserByNameCacheConsistent c users)
    (hfind : users.find? (fun x => decide (x.name = userName)) = some u) :
    ∃ v, (getUserByName now users c userName).1 = some v ∧ v.id = u.id := by
  unfold getUserByName
  cases hby : cacheGet userCacheTTLMillis now c.byName userName with
  | some w =>
    dsimp only
    obtain ⟨e, hem, hek, hev⟩ := cacheGet_some_mem hby
    obtain ⟨u2, hu2f, hu2id⟩ := hcons e hem
    rw [hek] at hu2f
    rw [hfind] at hu2f
    injection hu2f with hu2eq
    cases hic : cacheGet iconCacheTTLMillis now c.iconByName w.name with
    | some hsh =>
      dsimp only
      refine ⟨_, rfl, ?_⟩
      show w.id = u.id
      rw [← hev]
      rw [hu2id]
      rw [← hu2eq]
    | none =>
      dsimp only
      rw [hfind]
      dsimp only
      exact ⟨u, rfl, rfl⟩
  | none =>
    dsimp only
    rw [hfind]
    dsimp only
    exact ⟨u, rfl, rfl⟩

/-- C10 (amended): a NotFound answer happens only when the named user is
absent from the store; for a user that exists (under a cache state whose
name-keyed entries agree with the store) but has no icons row the handler
succeeds — it serves the fixed fallback image, or answers 304 Not
Modified when the request carries a matching If-None-Match header; with
no If-None-Match header it always serves the fallback image. -/
theorem getIconHandler_missing_icon (now : Nat) (ifNoneMatch username : String)
    (users : List UserModel) (icons : List IconModel) (c : UserCacheState) :
    ((getIconHandler now ifNoneMatch username users icons c).1 = .notFound →
      users.find? (fun x => decide (x.name = username)) = none) ∧
    (UserByNameCacheConsistent c users →
      ∀ u, users.find? (fun x => decide (x.name = username)) = some u →
        icons.find? (fun ic => decide (ic.userId = u.id)) = none →
        ((getIconHandler now ifNoneMatch username users icons c).1 = .fallbackFile ∨
          (getIconHandler now ifNoneMatch username users icons c).1 = .notModified) ∧
        (ifNoneMatch = "" →
          (getIconHandler now ifNoneMatch username users icons c).1 = .fallbackFile)) := by
  unfold getIconHandler
  by_cases h1 : ifNoneMatch ≠ "" ∧ iconCacheEtagHit now ifNoneMatch username c = true
  · rw [if_pos h1]
    refine ⟨(fun h => by cases h), fun _ u _ _ => ⟨Or.inr rfl, fun him => absurd him h1.1⟩⟩
  · rw [if_neg h1]
    rcases hgu : getUserByName now users c username with ⟨res, c2⟩
    cases res with
    | none =>
      dsimp only
      constructor
      · intro _
        exact getUserByName_none (by rw [hgu])
      · intro hcons u hfind _
        obtain ⟨v, hv, _⟩ :=
          @getUserByName_id_of_consistent now users c username u hcons hfind
        rw [hgu] at hv
        cases hv
    | some user =>
      dsimp only
      have hresolved : ∀ (hcons : UserByNameCacheConsistent c users) (u : UserModel),
          users.find? (fun x => decide (x.name = username)) = some u → user.id = u.id := by
        intro hcons u hfind
        obtain ⟨v, hv, hvid⟩ :=
          @getUserByName_id_of_consistent now users c username u hcons hfind
        rw [hgu] at hv
        injection hv with hv
        rw [hv]
        exact hvid
      by_cases h2 : ifNoneMatch ≠ "" ∧ quotedHex user.iconHash = ifNoneMatch
      · rw [if_pos h2]
        refine ⟨(fun h => by cases h), fun hcons u hfind hicon =>
          ⟨Or.inr rfl, fun him => absurd him h2.1⟩⟩
      · rw [if_neg h2]
        constructor
        · intro h
          cases hic : icons.find? (fun ic => decide (ic.userId = user.id)) with
          | none => rw [hic] at h; dsimp only at h; cases h
          | some ic => rw [hic] at h; dsimp only at h; cases h
        · intro hcons u hfind hicon
          have hid := hresolved hcons u hfind
          rw [← hid] at hicon
          rw [hicon]
          dsimp only
          exact ⟨Or.inl rfl, fun _ => rfl⟩

def cacheEmpty : UserCacheState := { byId := [], byName := [], iconByName := [] }

/-- Witness for C10 (amended): existing user, no icons row, no
If-None-Match header: the fallback image file is served. -/
theorem getIconHandler_missing_icon_witness :
    ([userAlice].find? (fun x => decide (x.name = "alice")) = some userAlice) ∧
      (getIconHandler 0 "" "alice" [userAlice] ([] : List IconModel) cacheEmpty).1 =
        .fallbackFile := by
  refine ⟨by decide, ?_⟩
  exact ((getIconHandler_missing_icon 0 "" "alice" [userAlice] [] cacheEmpty).2
    (fun e he => absurd he (by simp [cacheEmpty])) userAlice (by decide) rfl).2 rfl

/-- Counterexample to C10 as stated: for an existing user with no icons
row, a request whose If-None-Match matches the user's icon_hash is
answered 304 Not Modified — a success, but not the fallback image the
claim promises for every such request. -/
theorem getIconHandler_returns_304_for_missing_icon :
    ([userAlice].find? (fun x => decide (x.name = "alice")) = some userAlice) ∧
    (getIconHandler 0 "\"\"" "alice" [userAlice] ([] : List IconModel) cacheEmpty).1 =
      .notModified ∧
    (getIconHandler 0 "\"\"" "alice" [userAlice] ([] : List IconModel) cacheEmpty).1 ≠
      .fallbackFile := by
  refine ⟨by decide, by decide, by decide⟩

theorem bool_eq_false_of_not {b : Bool} (h : ¬b = true) : b = false := by
  cases hb : b
  · rfl
  · exact absurd hb h

theorem foldl_pick_top {α : Type} (stronger : α → α → Bool)
    (hasymm : ∀ a b, stronger a b = true → stronger b a = true → False)
    (hnegtrans : ∀ a b c, stronger a c = true →
      stronger a b = true ∨ stronger b c = true) :
    ∀ (rest : List α) (n : α),
      ((rest.foldl (fun best m => if stronger m best then m else best) n) = n ∨
        (rest.foldl (fun best m => if stronger m best then m else best) n) ∈ rest) ∧
      (∀ m, (m = n ∨ m ∈ rest) →
        stronger m (rest.foldl (fun best m => if stronger m best then m else best) n)
          = false) := by
  have hirr : ∀ a, stronger a a = false := by
    intro a
    cases hb : stronger a a
    · rfl
    · exact absurd (hasymm a a hb hb) (fun h => h)
  intro rest
  induction rest with
  | nil =>
    intro n
    refine ⟨Or.inl rfl, ?_⟩
    intro m hm
    rcases hm with rfl | hm
    · exact hirr m
    · cases hm
  | cons x rest ih =>
    intro n
    simp only [List.foldl_cons]
    obtain ⟨hmem, htop⟩ := ih (if stronger x n then x else n)
    have hloser : stronger x (if stronger x n then x else n) = false ∧
        stronger n (if stronger x n then x else n) = false := by
      by_cases hx : stronger x n = true
      · rw [if_pos hx]
        refine ⟨hirr x, ?_⟩
        cases hb : stronger n x
        · rfl
        · exact absurd (hasymm x n hx hb) (fun h => h)
      · rw [if_neg hx]
        exact ⟨bool_eq_false_of_not hx, hirr n⟩
    constructor
    · rcases hmem with h | h
      · rw [h]
        by_cases hx : stronger x n = true
        · rw [if_pos hx]
          exact Or.inr (List.mem_cons_self x rest)
        · rw [if_neg hx]
          exact Or.inl rfl
      · exact Or.inr (List.mem_cons_of_mem _ h)
    · intro m hm
      have hmid : m = n ∨ m = x ∨ m ∈ rest := by
        rcases hm with rfl | hm
        · exact Or.inl rfl
        · rcases List.mem_cons.mp hm with h | h
          · exact Or.inr (Or.inl h)
          · exact Or.inr (Or.inr h)
      rcases hmid with rfl | rfl | hmr
      · cases hb : stronger m
            (List.foldl (fun best m => if stronger m best then m else best)
              (if stronger x m then x else m) rest)
        · rfl
        · exfalso
          rcases hnegtrans m (if stronger x m then x else m) _ hb with h2 | h2
          · rw [hloser.2] at h2; cases h2
          · rw [htop _ (Or.inl rfl)] at h2; cases h2
      · cases hb : stronger m
            (List.foldl (fun best m_1 => if stronger m_1 best then m_1 else best)
              (if stronger m n then m else n) rest)
        · rfl
        · exfalso
          rcases hnegtrans m (if stronger m n then m else n) _ hb with h2 | h2
          · rw [hloser.1] at h2; cases h2
          · rw [htop _ (Or.inl rfl)] at h2; cases h2
      · exact htop m (Or.inr hmr)

/-- WHERE user_id = ? on favorite_emojis. -/
def favoriteEmojisOfUser (rows : List FavoriteEmojiModel) (userId : Int) :
    List FavoriteEmojiModel :=
  rows.filter (fun r => decide (r.userId = userId))

/-- COUNT(*) of one GROUP BY emoji_name group. -/
def emojiUsageCount (rows : List FavoriteEmojiModel) (userId : Int)
    (emojiName : String) : Nat :=
  (favoriteEmojisOfUser rows userId).countP (fun r => decide (r.emojiName = emojiName))

/-- The distinct emoji_name groups of the user's rows. -/
def emojiGroupNames (rows : List FavoriteEmojiModel) (userId : Int) : List String :=
  ((favoriteEmojisOfUser rows userId).map (fun r => r.emojiName)).dedup

/-- The ORDER BY COUNT(*) DESC, emoji_name DESC order: a comes strictly
before b when a's group is bigger, or equal-sized with the larger name. -/
def emojiOutranks (rows : List FavoriteEmojiModel) (userId : Int) (a b : String) : Bool :=
  decide (emojiUsageCount rows userId b < emojiUsageCount rows userId a) ||
    (decide (emojiUsageCount rows userId a = emojiUsageCount rows userId b) &&
      goStrLt b a)

/-- SELECT emoji_name FROM favorite_emojis WHERE user_id = ?
GROUP BY emoji_name ORDER BY COUNT(*) DESC, emoji_name DESC LIMIT 1;
with no rows the handler ignores sql.ErrNoRows and keeps the zero value. -/
def favoriteEmoji (rows : List FavoriteEmojiModel) (userId : Int) : String :=
  match emojiGroupNames rows userId with
  | [] => ""
  | n :: rest =>
    rest.foldl (fun best m => if emojiOutranks rows userId m best then m else best) n

theorem emojiOutranks_asymm (rows : List FavoriteEmojiModel) (userId : Int) :
    ∀ a b, emojiOutranks rows userId a b = true →
      emojiOutranks rows userId b a = true → False := by
  intro a b h1 h2
  unfold emojiOutranks at h1 h2
  simp only [Bool.or_eq_true, Bool.and_eq_true, decide_eq_true_eq] at h1 h2
  rcases h1 with h1 | ⟨h1e, h1n⟩ <;> rcases h2 with h2 | ⟨h2e, h2n⟩
  · omega
  · omega
  · omega
  · exact goStrLt_asymm h1n h2n

theorem emojiOutranks_negtrans (rows : List FavoriteEmojiModel) (userId : Int) :
    ∀ a b c, emojiOutranks rows userId a c = true →
      emojiOutranks rows userId a b = true ∨ emojiOutranks rows userId b c = true := by
  intro a b c h
  unfold emojiOutranks at h ⊢
  simp only [Bool.or_eq_true, Bool.and_eq_true, decide_eq_true_eq] at h ⊢
  rcases h with h | ⟨he, hn⟩
  · rcases Nat.lt_trichotomy (emojiUsageCount rows userId b) (emojiUsageCount rows userId a)
      with hb | hb | hb
    · exact Or.inl (Or.inl hb)
    · exact Or.inr (Or.inl (by omega))
    · exact Or.inr (Or.inl (by omega))
  · rcases Nat.lt_trichotomy (emojiUsageCount rows userId b) (emojiUsageCount rows userId a)
      with hb | hb | hb
    · exact Or.inl (Or.inl hb)
    · rcases goStrLt_trichotomy c b with hx | hx | hx
      · exact Or.inr (Or.inr ⟨by omega, hx⟩)
      · exact Or.inl (Or.inr ⟨by omega, goStrLt_trans hx hn⟩)
      · exact Or.inl (Or.inr ⟨by omega, by rw [← hx]; exact hn⟩)
    · exact Or.inr (Or.inl (by omega))

/-- C8: whenever a user has at least one logged reaction choice, the
returned favorite emoji is one of that user's logged emoji names, its
usage count is at least every other logged emoji's count, and any other
logged emoji with the same count has a lexicographically smaller name. -/
theorem favoriteEmoji_is_max (rows : List FavoriteEmojiModel) (userId : Int)
    (hne : favoriteEmojisOfUser rows userId ≠ []) :
    (∃ r ∈ rows, r.userId = userId ∧ r.emojiName = favoriteEmoji rows userId) ∧
    (∀ r ∈ rows, r.userId = userId →
      emojiUsageCount rows userId r.emojiName <
          emojiUsageCount rows userId (favoriteEmoji rows userId) ∨
        (emojiUsageCount rows userId r.emojiName =
            emojiUsageCount rows userId (favoriteEmoji rows userId) ∧
          (r.emojiName = favoriteEmoji rows userId ∨
            goStrLt r.emojiName (favoriteEmoji rows userId) = true))) := by
  cases hg : emojiGroupNames rows userId with
  | nil =>
    exfalso
    obtain ⟨r, hr⟩ := List.exists_mem_of_ne_nil _ hne
    have : r.emojiName ∈ emojiGroupNames rows userId := by
      unfold emojiGroupNames
      rw [List.mem_dedup]
      exact List.mem_map_of_mem _ hr
    rw [hg] at this
    cases this
  | cons n rest =>
    have hfe : favoriteEmoji rows userId =
        rest.foldl (fun best m => if emojiOutranks rows userId m best then m else best) n := by
      unfold favoriteEmoji
      rw [hg]
    obtain ⟨hmem, htop⟩ := foldl_pick_top (emojiOutranks rows userId)
      (emojiOutranks_asymm rows userId) (emojiOutranks_negtrans rows userId) rest n
    have hfmem : favoriteEmoji rows userId ∈ emojiGroupNames rows userId := by
      rw [hg, hfe]
      rcases hmem with h | h
      · rw [h]; exact List.mem_cons_self n rest
      · exact List.mem_cons_of_mem _ h
    constructor
    · unfold emojiGroupNames at hfmem
      rw [List.mem_dedup] at hfmem
      obtain ⟨r, hrf, hrn⟩ := List.mem_map.mp hfmem
      have hrm := List.mem_filter.mp hrf
      refine ⟨r, hrm.1, ?_, hrn⟩
      simpa using hrm.2
    · intro r hr hru
      have hrg : r.emojiName ∈ emojiGroupNames rows userId := by
        unfold emojiGroupNames
        rw [List.mem_dedup]
        exact List.mem_map_of_mem _
          (List.mem_filter.mpr ⟨hr, by simp [hru]⟩)
      rw [hg] at hrg
      have hout : emojiOutranks rows userId r.emojiName (favoriteEmoji rows userId) = false := by
        rw [hfe]
        rcases List.mem_cons.mp hrg with h | h
        · exact htop _ (Or.inl h)
        · exact htop _ (Or.inr h)
      unfold emojiOutranks at hout
      simp only [Bool.or_eq_false_iff, Bool.and_eq_false_iff, decide_eq_false_iff_not] at hout
      rcases Nat.lt_trichotomy (emojiUsageCount rows userId r.emojiName)
          (emojiUsageCount rows userId (favoriteEmoji rows userId)) with hc | hc | hc
      · exact Or.inl hc
      · right
        refine ⟨hc, ?_⟩
        rcases hout.2 with h2 | h2
        · exact absurd hc h2
        · rcases goStrLt_trichotomy r.emojiName (favoriteEmoji rows userId) with hx | hx | hx
          · exact Or.inr hx
          · rw [h2] at hx; cases hx
          · exact Or.inl hx
      · exact absurd hc hout.1

def emojiRowsW : List FavoriteEmojiModel :=
  [{ userId := 1, emojiName := "x" }, { userId := 1, emojiName := "y" },
   { userId := 1, emojiName := "y" }]

/-- Witness for C8 on three rows of one user: the twice-used emoji wins. -/
theorem favoriteEmoji_is_max_witness :
    favoriteEmojisOfUser emojiRowsW 1 ≠ [] ∧
      favoriteEmoji emojiRowsW 1 = "y" ∧
      (∃ r ∈ emojiRowsW, r.userId = 1 ∧ r.emojiName = favoriteEmoji emojiRowsW 1) :=
  ⟨by decide, by decide, (favoriteEmoji_is_max emojiRowsW 1 (by decide)).1⟩

/-- COUNT(*) FROM users u JOIN livestreams l ON l.user_id = u.id
JOIN reactions r ON r.livestream_id = l.id WHERE u.id = ?, counting the
join pairs per owned livestream. -/
def userReactionsRecount (db : Database) (userId : Int) : Int :=
  ((db.livestreams.filter (fun l => decide (l.userId = userId))).map
    (fun l => ((db.reactions.filter
      (fun r => decide (r.livestreamId = l.id))).length : Int))).sum

/-- IFNULL(SUM(l2.tip), 0) over the user's livestreams joined with
livecomments. -/
def userTipsRecount (db : Database) (userId : Int) : Int :=
  ((db.livestreams.filter (fun l => decide (l.userId = userId))).map
    (fun l => ((db.livecomments.filter
      (fun m => decide (m.livestreamId = l.id))).map (fun m => m.tip)).sum)).sum

/-- COUNT(*) over the user's livestreams joined with livecomments. -/
def userLiveCommentsRecount (db : Database) (userId : Int) : Int :=
  ((db.livestreams.filter (fun l => decide (l.userId = userId))).map
    (fun l => ((db.livecomments.filter
      (fun m => decide (m.livestreamId = l.id))).length : Int))).sum

/-- COUNT(*) FROM livestreams l JOIN reactions r ON l.id = r.livestream_id
WHERE l.id = ?. -/
def livestreamReactionsRecount (db : Database) (livestreamId : Int) : Int :=
  ((db.reactions.filter (fun r => decide (r.livestreamId = livestreamId))).length : Int)

/-- IFNULL(SUM(l2.tip), 0) over one livestream's livecomments. -/
def livestreamTipsRecount (db : Database) (livestreamId : Int) : Int :=
  ((db.livecomments.filter
    (fun m => decide (m.livestreamId = livestreamId))).map (fun m => m.tip)).sum

/-- IFNULL(MAX(tip), 0) over one livestream's livecomments. -/
def livestreamMaxTipRecount (db : Database) (livestreamId : Int) : Int :=
  match db.livecomments.filter (fun m => decide (m.livestreamId = livestreamId)) with
  | [] => 0
  | m :: ms => ms.foldl (fun acc x => max acc x.tip) m.tip

/-- The three UPDATE users SET ... statements of one loop iteration. -/
def recountUser (db : Database) (u : UserModel) : UserModel :=
  { u with reactions := userReactionsRecount db u.id,
           tips := userTipsRecount db u.id,
           liveComments := userLiveCommentsRecount db u.id }

/-- The three UPDATE livestreams SET ... statements of one loop iteration. -/
def recountLivestream (db : Database) (l : LivestreamModel) : LivestreamModel :=
  { l with reactions := livestreamReactionsRecount db l.id,
           tips := livestreamTipsRecount db l.id,
           maxTip := livestreamMaxTipRecount db l.id }

/-- The counter-recomputation transaction of initializeHandler: every
user's and every livestream's denormalized counters are rewritten from
the base reaction and livecomment rows, which the transaction never
modifies.  (The external ../sql/init.sh data reset that precedes it is
outside the modelled store.) -/
def initializeRecount (db : Database) : Database :=
  { db with users := db.users.map (recountUser db),
            livestreams := db.livestreams.map (recountLivestream db) }

theorem filtered_map_project {α : Type} (ls : List LivestreamModel)
    (g : LivestreamModel → LivestreamModel)
    (hid : ∀ l, (g l).id = l.id) (huid : ∀ l, (g l).userId = l.userId)
    (f : Int → α) (uid : Int) :
    ((ls.map g).filter (fun l => decide (l.userId = uid))).map (fun l => f l.id) =
      (ls.filter (fun l => decide (l.userId = uid))).map (fun l => f l.id) := by
  induction ls with
  | nil => rfl
  | cons x xs ih =>
    simp only [List.map_cons, List.filter_cons, huid x, decide_eq_true_eq]
    by_cases hx : x.userId = uid
    · rw [if_pos hx, if_pos hx]
      simp only [List.map_cons, hid x]
      rw [ih]
    · rw [if_neg hx, if_neg hx]
      exact ih

theorem userReactionsRecount_stable (db : Database) (uid : Int) :
    userReactionsRecount (initializeRecount db) uid = userReactionsRecount db uid := by
  unfold userReactionsRecount
  have h := filtered_map_project db.livestreams (recountLivestream db)
    (fun l => rfl) (fun l => rfl)
    (fun i => ((db.reactions.filter (fun r => decide (r.livestreamId = i))).length : Int)) uid
  exact congrArg List.sum h

theorem userTipsRecount_stable (db : Database) (uid : Int) :
    userTipsRecount (initializeRecount db) uid = userTipsRecount db uid := by
  unfold userTipsRecount
  have h := filtered_map_project db.livestreams (recountLivestream db)
    (fun l => rfl) (fun l => rfl)
    (fun i => ((db.livecomments.filter
      (fun m => decide (m.livestreamId = i))).map (fun m => m.tip)).sum) uid
  exact congrArg List.sum h

theorem userLiveCommentsRecount_stable (db : Database) (uid : Int) :
    userLiveCommentsRecount (initializeRecount db) uid = userLiveCommentsRecount db uid := by
  unfold userLiveCommentsRecount
  have h := filtered_map_project db.livestreams (recountLivestream db)
    (fun l => rfl) (fun l => rfl)
    (fun i => ((db.livecomments.filter
      (fun m => decide (m.livestreamId = i))).length : Int)) uid
  exact congrArg List.sum h

/-- C9: the bulk counter recomputation is idempotent — run twice on the
same base rows (reactions, livecomments untouched in between) it produces
identical counters for every user and every livestream, because the
recomputed values depend only on the base rows and on the ids the
rewrite preserves. -/
theorem initializeRecount_idempotent (db : Database) :
    initializeRecount (initializeRecount db) = initializeRecount db := by
  unfold initializeRecount
  congr 1
  · rw [List.map_map]
    apply List.map_congr_left
    intro u _
    show recountUser (initializeRecount db) (recountUser db u) = recountUser db u
    unfold recountUser
    dsimp only
    rw [userReactionsRecount_stable, userTipsRecount_stable, userLiveCommentsRecount_stable]
  · rw [List.map_map]
    apply List.map_congr_left
    intro l _
    show recountLivestream (initializeRecount db) (recountLivestream db l) =
      recountLivestream db l
    rfl
